import Mathlib

/-!
Verification development for the finmoney library: currency-safe monetary
values (amount + currency descriptor) with multi-strategy rounding and
exchange-grade tick rounding.

Embedding notes.
The library is built on an external exact-decimal engine (rust_decimal),
which is outside this repository; the spec (sections 2, 4.3, 9) treats it as
an opaque capability providing exact base-10 arithmetic, value equality and
value ordering, and scale-aware rounding with seven strategies.  We therefore
model monetary amounts as exact rationals and the engine's rounding of a
value to a number of decimal places as exact rational rounding.  The one
place the code inspects the concrete mantissa/scale representation of a
decimal is the tick fast-path test, which reads the scale of the caller
supplied tick value; ticks are therefore embedded as explicit
mantissa/scale pairs with a valuation into the rationals, and value equality
of decimals (the engine's equality) is equality of valuations.
-/

namespace Finmoney

/-- Rounding strategies of rounding.rs: the seven policies. -/
inductive FinMoneyRoundingStrategy where
  | midpointNearestEven
  | midpointAwayFromZero
  | midpointTowardZero
  | toZero
  | awayFromZero
  | toNegativeInfinity
  | toPositiveInfinity
deriving DecidableEq, Repr

/-- Modelled from the spec: rounding a rational to an integer with one of the
seven strategies of section 4.3 (the decimal engine's native rounding modes,
which rounding.rs maps onto one-for-one).  Midpoint strategies round to the
nearest integer and resolve exact halves per policy; directional strategies
ignore the midpoint.  For banker's rounding the even neighbour is the one
whose residue mod 2 is zero. -/
def roundInt : FinMoneyRoundingStrategy → ℚ → ℤ
  | .midpointNearestEven, q =>
      if q - ⌊q⌋ < 1/2 then ⌊q⌋
      else if 1/2 < q - ⌊q⌋ then ⌊q⌋ + 1
      else if ⌊q⌋ % 2 = 0 then ⌊q⌋ else ⌊q⌋ + 1
  | .midpointAwayFromZero, q =>
      if q - ⌊q⌋ < 1/2 then ⌊q⌋
      else if 1/2 < q - ⌊q⌋ then ⌊q⌋ + 1
      else if 0 ≤ q then ⌊q⌋ + 1 else ⌊q⌋
  | .midpointTowardZero, q =>
      if q - ⌊q⌋ < 1/2 then ⌊q⌋
      else if 1/2 < q - ⌊q⌋ then ⌊q⌋ + 1
      else if 0 ≤ q then ⌊q⌋ else ⌊q⌋ + 1
  | .toZero, q => if 0 ≤ q then ⌊q⌋ else ⌈q⌉
  | .awayFromZero, q => if 0 ≤ q then ⌈q⌉ else ⌊q⌋
  | .toNegativeInfinity, q => ⌊q⌋
  | .toPositiveInfinity, q => ⌈q⌉

/-- Modelled from the spec: the decimal engine's round_dp_with_strategy,
rounding a value to d decimal places with the given strategy (exact on the
rational value; representation-level no-ops of the engine coincide with this
on values). -/
def roundToDp (d : Nat) (s : FinMoneyRoundingStrategy) (q : ℚ) : ℚ :=
  (roundInt s (q * 10 ^ d) : ℚ) / 10 ^ d

/-- Modelled from the spec: the decimal engine's truncation toward zero. -/
def truncI (q : ℚ) : ℤ := if 0 ≤ q then ⌊q⌋ else ⌈q⌉

/-- Modelled from the spec: the decimal engine's fract, the value minus its
truncation toward zero. -/
def fractQ (q : ℚ) : ℚ := q - (truncI q : ℚ)

/-- Modelled from the spec: the decimal engine's square root, defined (Some)
exactly on non-negative inputs and None on negative inputs; the approximate
value is the integer square root at 28 fractional digits. -/
def sqrtQ (q : ℚ) : Option ℚ :=
  if q < 0 then none
  else some ((Nat.sqrt (⌊q * 10 ^ 56⌋.toNat) : ℚ) / 10 ^ 28)

/-- Embedding of a concrete decimal representation (mantissa and scale), used
where the code inspects the representation: the tick arguments of the tick
operations, whose scale the fast-path test of money.rs reads. -/
structure Decimal where
  mantissa : Int
  scale : Nat
deriving DecidableEq, Repr

/-- Value of a decimal representation: mantissa scaled down by 10^scale. -/
def Decimal.val (d : Decimal) : ℚ := (d.mantissa : ℚ) / 10 ^ d.scale

/-- Error type of error.rs. -/
inductive FinMoneyError where
  | currencyMismatch (expected : String) (actual : String)
  | divisionByZero
  | invalidPrecision (p : Nat)
  | invalidTick
  | invalidCurrencyCode (raw : String)
  | invalidCurrencyName (raw : String)
  | arithmeticOverflow
  | invalidAmount (reason : String)
deriving DecidableEq, Repr

/-- Currency descriptor of currency.rs: numeric identity, optional name,
short code, and decimal precision.  Codes and names are bounded ASCII
strings in the source (TinyAsciiStr); here they are plain strings and the
bounds are proved of the constructors. -/
structure FinMoneyCurrency where
  id : Int
  name : Option String
  code : String
  precision : Nat
deriving DecidableEq, Repr

/-- Acceptance test of the fixed-capacity ASCII string type backing codes and
names (tinystr): a string parses into a capacity-n slot exactly when its
length is at most n and every character is non-NUL ASCII.  Rust measures the
bound in bytes; on the accepted strings every character is ASCII, so byte
length and character length agree, and rejected strings are rejected under
both measures. -/
def isTinyOk (n : Nat) (s : String) : Bool :=
  decide (s.length ≤ n) && s.data.all (fun c => decide (c.toNat ≠ 0) && decide (c.toNat ≤ 127))

/-- Sanitization helper of currency.rs: keep at most maxLen characters,
replacing each non-ASCII character with an underscore (character 95). -/
def sanitize_ascii_truncate (input : String) (maxLen : Nat) : String :=
  String.mk ((input.data.take maxLen).map (fun c => if c.toNat ≤ 127 then c else Char.ofNat 95))

/-- Code sanitization of currency.rs: try to parse the raw string as-is
first; only on failure sanitize-and-truncate to 16 and parse the result. -/
def sanitize_and_parse_code (code : String) : Option String :=
  if isTinyOk 16 code then some code
  else if isTinyOk 16 (sanitize_ascii_truncate code 16) then
    some (sanitize_ascii_truncate code 16)
  else none

/-- Name sanitization of currency.rs: as for codes, with the 52 bound. -/
def sanitize_and_parse_name (name : String) : Option String :=
  if isTinyOk 52 name then some name
  else if isTinyOk 52 (sanitize_ascii_truncate name 52) then
    some (sanitize_ascii_truncate name 52)
  else none

/-- Strict constructor of currency.rs: rejects precision above 28, then an
unrepresentable name (with the raw name in the error), then an
unrepresentable code (with the raw code in the error). -/
def FinMoneyCurrency.new (id : Int) (code : String) (name : Option String)
    (precision : Nat) : Except FinMoneyError FinMoneyCurrency :=
  if precision > 28 then Except.error (FinMoneyError.invalidPrecision precision)
  else
    match name with
    | some n =>
      match sanitize_and_parse_name n with
      | some pn =>
        match sanitize_and_parse_code code with
        | some pc => Except.ok ⟨id, some pn, pc, precision⟩
        | none => Except.error (FinMoneyError.invalidCurrencyCode code)
      | none => Except.error (FinMoneyError.invalidCurrencyName n)
    | none =>
      match sanitize_and_parse_code code with
      | some pc => Except.ok ⟨id, none, pc, precision⟩
      | none => Except.error (FinMoneyError.invalidCurrencyCode code)

/-- Lenient constructor of currency.rs: clamps precision to 28, drops an
unrepresentable name, and falls back to the reserved INVALID code. -/
def FinMoneyCurrency.new_sanitized (id : Int) (code : String) (name : Option String)
    (precision : Nat) : FinMoneyCurrency :=
  ⟨id, name.bind sanitize_and_parse_name,
    (sanitize_and_parse_code code).getD ("INVALID"), min precision 28⟩

/-- Copy with a new precision; rejects precision above 28. -/
def FinMoneyCurrency.with_precision (c : FinMoneyCurrency) (p : Nat) :
    Except FinMoneyError FinMoneyCurrency :=
  if p > 28 then Except.error (FinMoneyError.invalidPrecision p)
  else Except.ok ⟨c.id, c.name, c.code, p⟩

/-- Currency identity of currency.rs: id equality only. -/
def FinMoneyCurrency.is_same_currency (a b : FinMoneyCurrency) : Bool :=
  a.id == b.id

/-- Predefined USD constant (id 1, code USD, precision 2). -/
def FinMoneyCurrency.USD : FinMoneyCurrency := ⟨1, none, "USD", 2⟩

/-- Predefined EUR constant (id 2, code EUR, precision 2). -/
def FinMoneyCurrency.EUR : FinMoneyCurrency := ⟨2, none, "EUR", 2⟩

/-- Monetary value of money.rs: an exact amount and a currency descriptor
held by value. -/
structure FinMoney where
  amount : ℚ
  currency : FinMoneyCurrency
deriving DecidableEq, Repr

/-- Shared currency-mismatch check of money.rs: error with the receiver's
code as expected and the argument's code as actual when the ids differ. -/
def FinMoney.assert_same_currency (a b : FinMoney) : Except FinMoneyError Unit :=
  if a.currency.is_same_currency b.currency then Except.ok ()
  else Except.error (FinMoneyError.currencyMismatch a.currency.code b.currency.code)

/-- Internal rounding helper of money.rs: round a value to the receiver's
currency precision with the given strategy. -/
def FinMoney.round_result (a : FinMoney) (v : ℚ) (s : FinMoneyRoundingStrategy) : ℚ :=
  roundToDp a.currency.precision s v

/-- Addition of two monetary values (same currency required). -/
def FinMoney.plus_money (a b : FinMoney) : Except FinMoneyError FinMoney :=
  (a.assert_same_currency b).bind fun _ =>
    Except.ok ⟨a.amount + b.amount, a.currency⟩

/-- Addition of a raw decimal (no currency check). -/
def FinMoney.plus_decimal (a : FinMoney) (d : ℚ) : FinMoney :=
  ⟨a.amount + d, a.currency⟩

/-- Subtraction of two monetary values (same currency required). -/
def FinMoney.minus_money (a b : FinMoney) : Except FinMoneyError FinMoney :=
  (a.assert_same_currency b).bind fun _ =>
    Except.ok ⟨a.amount - b.amount, a.currency⟩

/-- Subtraction of a raw decimal (no currency check). -/
def FinMoney.minus_decimal (a : FinMoney) (d : ℚ) : FinMoney :=
  ⟨a.amount - d, a.currency⟩

/-- Multiplication of two monetary values (same currency required). -/
def FinMoney.multiplied_by_money (a b : FinMoney) : Except FinMoneyError FinMoney :=
  (a.assert_same_currency b).bind fun _ =>
    Except.ok ⟨a.amount * b.amount, a.currency⟩

/-- Multiplication by a raw decimal (no currency check). -/
def FinMoney.multiplied_by_decimal (a : FinMoney) (d : ℚ) : FinMoney :=
  ⟨a.amount * d, a.currency⟩

/-- Division by a monetary value: currency check first, then zero check, then
the quotient rounded to the dividend's currency precision. -/
def FinMoney.divided_by_money (a b : FinMoney) (s : FinMoneyRoundingStrategy) :
    Except FinMoneyError FinMoney :=
  (a.assert_same_currency b).bind fun _ =>
    if b.amount = 0 then Except.error FinMoneyError.divisionByZero
    else Except.ok ⟨a.round_result (a.amount / b.amount) s, a.currency⟩

/-- Division by a raw decimal: zero check, then the quotient rounded to the
dividend's currency precision. -/
def FinMoney.divided_by_decimal (a : FinMoney) (d : ℚ) (s : FinMoneyRoundingStrategy) :
    Except FinMoneyError FinMoney :=
  if d = 0 then Except.error FinMoneyError.divisionByZero
  else Except.ok ⟨a.round_result (a.amount / d) s, a.currency⟩

/-- Value ordering of the decimal engine (used by compare_to). -/
def ratCmp (x y : ℚ) : Ordering :=
  if x < y then Ordering.lt else if x = y then Ordering.eq else Ordering.gt

/-- Comparison (same currency required). -/
def FinMoney.compare_to (a b : FinMoney) : Except FinMoneyError Ordering :=
  (a.assert_same_currency b).bind fun _ => Except.ok (ratCmp a.amount b.amount)

/-- Comparison alias delegating to compare_to. -/
def FinMoney.compare (a b : FinMoney) : Except FinMoneyError Ordering :=
  a.compare_to b

/-- Minimum of two monetary values (same currency required); returns the
receiver on ties. -/
def FinMoney.min (a b : FinMoney) : Except FinMoneyError FinMoney :=
  (a.assert_same_currency b).bind fun _ =>
    Except.ok (if a.amount ≤ b.amount then a else b)

/-- Maximum of two monetary values (same currency required); returns the
receiver on ties. -/
def FinMoney.max (a b : FinMoney) : Except FinMoneyError FinMoney :=
  (a.assert_same_currency b).bind fun _ =>
    Except.ok (if b.amount ≤ a.amount then a else b)

/-- Strict less-than (same currency required). -/
def FinMoney.is_less_than (a b : FinMoney) : Except FinMoneyError Bool :=
  (a.assert_same_currency b).bind fun _ => Except.ok (decide (a.amount < b.amount))

/-- Strict greater-than (same currency required). -/
def FinMoney.is_greater_than (a b : FinMoney) : Except FinMoneyError Bool :=
  (a.assert_same_currency b).bind fun _ => Except.ok (decide (b.amount < a.amount))

/-- Rescaling of money.rs: change the currency precision (validated), then
round the amount to the new precision with the default strategy. -/
def FinMoney.rescale (a : FinMoney) (p : Nat) : Except FinMoneyError FinMoney :=
  (a.currency.with_precision p).bind fun nc =>
    Except.ok ⟨roundToDp p FinMoneyRoundingStrategy.midpointNearestEven a.amount, nc⟩

/-- Rounding to the currency precision with a strategy. -/
def FinMoney.rounded (a : FinMoney) (s : FinMoneyRoundingStrategy) : FinMoney :=
  ⟨a.round_result a.amount s, a.currency⟩

/-- Rounding to dp places with a strategy. -/
def FinMoney.round_dp_with_strategy (a : FinMoney) (dp : Nat)
    (s : FinMoneyRoundingStrategy) : FinMoney :=
  ⟨roundToDp dp s a.amount, a.currency⟩

/-- Rounding to dp places with the default (banker's) strategy. -/
def FinMoney.round_dp (a : FinMoney) (dp : Nat) : FinMoney :=
  ⟨roundToDp dp FinMoneyRoundingStrategy.midpointNearestEven a.amount, a.currency⟩

/-- Floor of the amount. -/
def FinMoney.floor (a : FinMoney) : FinMoney := ⟨(⌊a.amount⌋ : ℚ), a.currency⟩

/-- Ceiling of the amount. -/
def FinMoney.ceil (a : FinMoney) : FinMoney := ⟨(⌈a.amount⌉ : ℚ), a.currency⟩

/-- Truncation of the amount toward zero. -/
def FinMoney.trunc (a : FinMoney) : FinMoney := ⟨(truncI a.amount : ℚ), a.currency⟩

/-- Absolute value of the amount. -/
def FinMoney.abs (a : FinMoney) : FinMoney := ⟨|a.amount|, a.currency⟩

/-- Negation of the amount. -/
def FinMoney.negated (a : FinMoney) : FinMoney := ⟨-a.amount, a.currency⟩

/-- Normalization of money.rs canonicalizes the trailing-zero representation
without changing the value; on values it is the identity. -/
def FinMoney.normalize (a : FinMoney) : FinMoney := ⟨a.amount, a.currency⟩

/-- Square root of money.rs: unwraps the engine's square root, so the result
is None (a panic in the source) exactly when the engine's square root is
undefined. -/
def FinMoney.sqrt (a : FinMoney) : Option FinMoney :=
  (sqrtQ a.amount).map fun r => ⟨r, a.currency⟩

/-- Percentage change from an initial value: same currency required, zero
initial amount is a division by zero. -/
def FinMoney.percent_change_from (a initial : FinMoney) : Except FinMoneyError ℚ :=
  (a.assert_same_currency initial).bind fun _ =>
    if initial.amount = 0 then Except.error FinMoneyError.divisionByZero
    else Except.ok ((a.amount - initial.amount) * 100 / initial.amount)

/-- Negative percentage change: the mirrored numerator. -/
def FinMoney.negative_percent_change_from (a initial : FinMoney) :
    Except FinMoneyError ℚ :=
  (a.assert_same_currency initial).bind fun _ =>
    if initial.amount = 0 then Except.error FinMoneyError.divisionByZero
    else Except.ok ((initial.amount - a.amount) * 100 / initial.amount)

/-- Fast-path detection helper of money.rs: a tick is a pure power of ten
exactly when it equals one unit at its own scale (value equality of the
engine), in which case the number of decimal places is that scale. -/
def Decimal.tick_power10_dp (tick : Decimal) : Option Nat :=
  if tick.val = 1 / 10 ^ tick.scale then some tick.scale else none

/-- Tick rounding of money.rs: reject non-positive ticks; round directly to
decimal places on the power-of-ten fast path; otherwise divide by the tick,
round the quotient to an integer with the strategy, and multiply back. -/
def FinMoney.to_tick (x : FinMoney) (tick : Decimal) (s : FinMoneyRoundingStrategy) :
    Except FinMoneyError FinMoney :=
  if tick.val ≤ 0 then Except.error FinMoneyError.invalidTick
  else
    match tick.tick_power10_dp with
    | some dp => Except.ok ⟨roundToDp dp s x.amount, x.currency⟩
    | none =>
      Except.ok ⟨roundToDp 0 s (x.amount / tick.val) * tick.val, x.currency⟩

/-- Downward tick rounding wrapper. -/
def FinMoney.to_tick_down (x : FinMoney) (tick : Decimal) : Except FinMoneyError FinMoney :=
  x.to_tick tick FinMoneyRoundingStrategy.toNegativeInfinity

/-- Upward tick rounding wrapper. -/
def FinMoney.to_tick_up (x : FinMoney) (tick : Decimal) : Except FinMoneyError FinMoney :=
  x.to_tick tick FinMoneyRoundingStrategy.toPositiveInfinity

/-- Nearest tick rounding wrapper (banker's rounding). -/
def FinMoney.to_tick_nearest (x : FinMoney) (tick : Decimal) : Except FinMoneyError FinMoney :=
  x.to_tick tick FinMoneyRoundingStrategy.midpointNearestEven

/-- Tick membership of money.rs: false for a zero tick; on the power-of-ten
fast path compare the amount to its rounding at that many places; otherwise
test that the quotient by the tick has zero fractional part. -/
def FinMoney.is_multiple_of_tick (x : FinMoney) (tick : Decimal) : Bool :=
  if tick.val = 0 then false
  else
    match tick.tick_power10_dp with
    | some dp =>
      decide (roundToDp dp FinMoneyRoundingStrategy.midpointNearestEven x.amount = x.amount)
    | none => decide (fractQ (x.amount / tick.val) = 0)

/-- Operator-sugar in-place addition of money.rs: unwraps plus_money, so the
result is None (a panic in the source) exactly on a currency mismatch. -/
def FinMoney.addAssign (a b : FinMoney) : Option FinMoney :=
  (a.plus_money b).toOption

/-- Operator-sugar in-place subtraction of money.rs: unwraps minus_money, so
the result is None (a panic in the source) exactly on a currency mismatch. -/
def FinMoney.subAssign (a b : FinMoney) : Option FinMoney :=
  (a.minus_money b).toOption

/-! Helper lemmas about the rounding model. -/

theorem roundInt_intCast (s : FinMoneyRoundingStrategy) (n : ℤ) :
    roundInt s (n : ℚ) = n := by
  cases s <;> norm_num [roundInt]

theorem roundToDp_mul_pow (d : Nat) (s : FinMoneyRoundingStrategy) (q : ℚ) :
    roundToDp d s q * 10 ^ d = (roundInt s (q * 10 ^ d) : ℚ) := by
  have hp : (10 : ℚ) ^ d ≠ 0 := by positivity
  unfold roundToDp
  rw [div_mul_cancel₀ _ hp]

theorem roundToDp_zero_eq (s : FinMoneyRoundingStrategy) (q : ℚ) :
    roundToDp 0 s q = (roundInt s q : ℚ) := by
  simp [roundToDp]

theorem roundToDp_idem (d : Nat) (s : FinMoneyRoundingStrategy) (q : ℚ) :
    roundToDp d s (roundToDp d s q) = roundToDp d s q := by
  have hp : (10 : ℚ) ^ d ≠ 0 := by positivity
  unfold roundToDp
  rw [div_mul_cancel₀ _ hp, roundInt_intCast]

theorem roundToDp_eq_self_iff (d : Nat) (s : FinMoneyRoundingStrategy) (q : ℚ) :
    roundToDp d s q = q ↔ ∃ m : ℤ, q * 10 ^ d = (m : ℚ) := by
  have hp : (10 : ℚ) ^ d ≠ 0 := by positivity
  constructor
  · intro h
    have hmul := roundToDp_mul_pow d s q
    rw [h] at hmul
    exact ⟨roundInt s (q * 10 ^ d), hmul⟩
  · rintro ⟨m, hm⟩
    unfold roundToDp
    rw [hm, roundInt_intCast, eq_comm, eq_div_iff hp]
    exact hm

theorem roundInt_cast_eq_self_iff (s : FinMoneyRoundingStrategy) (q : ℚ) :
    (roundInt s q : ℚ) = q ↔ ∃ m : ℤ, q = (m : ℚ) := by
  constructor
  · intro h
    exact ⟨roundInt s q, h.symm⟩
  · rintro ⟨m, rfl⟩
    rw [roundInt_intCast]

theorem truncI_intCast (n : ℤ) : truncI (n : ℚ) = n := by
  simp [truncI]

theorem fractQ_eq_zero_iff (q : ℚ) : fractQ q = 0 ↔ ∃ m : ℤ, q = (m : ℚ) := by
  constructor
  · intro h
    exact ⟨truncI q, sub_eq_zero.mp h⟩
  · rintro ⟨m, rfl⟩
    simp [fractQ, truncI_intCast]

theorem assert_same_currency_ok {a b : FinMoney} (h : a.currency.id = b.currency.id) :
    a.assert_same_currency b = Except.ok () := by
  simp [FinMoney.assert_same_currency, FinMoneyCurrency.is_same_currency, h]

theorem assert_same_currency_mismatch {a b : FinMoney} (h : a.currency.id ≠ b.currency.id) :
    a.assert_same_currency b =
      Except.error (FinMoneyError.currencyMismatch a.currency.code b.currency.code) := by
  simp [FinMoney.assert_same_currency, FinMoneyCurrency.is_same_currency, h]

theorem except_ok_bind {ε α β : Type} (a : α) (f : α → Except ε β) :
    (Except.ok a : Except ε α).bind f = f a := rfl

theorem except_error_bind {ε α β : Type} (e : ε) (f : α → Except ε β) :
    (Except.error e : Except ε α).bind f = Except.error e := rfl

/-- C1: for every pair of FinMoney values whose currencies have different
ids, each same-currency-required operation (plus_money, minus_money,
multiplied_by_money, divided_by_money, compare, compare_to, min, max,
is_less_than, is_greater_than, percent_change_from) returns CurrencyMismatch
with expected the receiver's currency code and actual the argument's
currency code, and performs no arithmetic; in particular divided_by_money on
mismatched currencies returns CurrencyMismatch even when the divisor amount
is zero (the divisor amount is unconstrained here). -/
theorem C1_currency_gating (a b : FinMoney) (s : FinMoneyRoundingStrategy)
    (h : a.currency.id ≠ b.currency.id) :
    a.plus_money b =
      Except.error (FinMoneyError.currencyMismatch a.currency.code b.currency.code) ∧
    a.minus_money b =
      Except.error (FinMoneyError.currencyMismatch a.currency.code b.currency.code) ∧
    a.multiplied_by_money b =
      Except.error (FinMoneyError.currencyMismatch a.currency.code b.currency.code) ∧
    a.divided_by_money b s =
      Except.error (FinMoneyError.currencyMismatch a.currency.code b.currency.code) ∧
    a.compare b =
      Except.error (FinMoneyError.currencyMismatch a.currency.code b.currency.code) ∧
    a.compare_to b =
      Except.error (FinMoneyError.currencyMismatch a.currency.code b.currency.code) ∧
    a.min b =
      Except.error (FinMoneyError.currencyMismatch a.currency.code b.currency.code) ∧
    a.max b =
      Except.error (FinMoneyError.currencyMismatch a.currency.code b.currency.code) ∧
    a.is_less_than b =
      Except.error (FinMoneyError.currencyMismatch a.currency.code b.currency.code) ∧
    a.is_greater_than b =
      Except.error (FinMoneyError.currencyMismatch a.currency.code b.currency.code) ∧
    a.percent_change_from b =
      Except.error (FinMoneyError.currencyMismatch a.currency.code b.currency.code) := by
  have hm := assert_same_currency_mismatch h
  refine ⟨?_, ?_, ?_, ?_, ?_, ?_, ?_, ?_, ?_, ?_, ?_⟩ <;>
    simp [FinMoney.plus_money, FinMoney.minus_money, FinMoney.multiplied_by_money,
      FinMoney.divided_by_money, FinMoney.compare, FinMoney.compare_to, FinMoney.min,
      FinMoney.max, FinMoney.is_less_than, FinMoney.is_greater_than,
      FinMoney.percent_change_from, hm, except_error_bind]

/-- Witness for C1 at USD versus EUR with a zero divisor amount. -/
theorem C1_currency_gating_witness :
    (FinMoney.mk (21/2) FinMoneyCurrency.USD).divided_by_money
        (FinMoney.mk 0 FinMoneyCurrency.EUR) FinMoneyRoundingStrategy.midpointNearestEven =
      Except.error (FinMoneyError.currencyMismatch ("USD") ("EUR")) :=
  (C1_currency_gating (FinMoney.mk (21/2) FinMoneyCurrency.USD)
    (FinMoney.mk 0 FinMoneyCurrency.EUR) FinMoneyRoundingStrategy.midpointNearestEven
    (by decide)).2.2.2.1

/-- C2: for matching currencies, divided_by_money returns DivisionByZero
exactly when the divisor amount is zero, and otherwise the quotient rounded
to the dividend's currency precision with the supplied strategy;
divided_by_decimal behaves likewise for a raw divisor; and in every success
case the result amount times ten to the currency precision is an integer
(the scale of the result is at most the currency precision), for every
strategy and every non-zero divisor. -/
theorem C2_division_rounding (a b : FinMoney) (d : ℚ) (s : FinMoneyRoundingStrategy)
    (hid : a.currency.id = b.currency.id) :
    (b.amount = 0 → a.divided_by_money b s = Except.error FinMoneyError.divisionByZero) ∧
    (b.amount ≠ 0 →
      a.divided_by_money b s =
        Except.ok ⟨roundToDp a.currency.precision s (a.amount / b.amount), a.currency⟩ ∧
      ∃ m : ℤ, roundToDp a.currency.precision s (a.amount / b.amount) *
          10 ^ a.currency.precision = (m : ℚ)) ∧
    (d = 0 → a.divided_by_decimal d s = Except.error FinMoneyError.divisionByZero) ∧
    (d ≠ 0 →
      a.divided_by_decimal d s =
        Except.ok ⟨roundToDp a.currency.precision s (a.amount / d), a.currency⟩ ∧
      ∃ m : ℤ, roundToDp a.currency.precision s (a.amount / d) *
          10 ^ a.currency.precision = (m : ℚ)) := by
  have hok := assert_same_currency_ok hid
  refine ⟨fun hz => ?_, fun hz => ⟨?_, ?_⟩, fun hz => ?_, fun hz => ⟨?_, ?_⟩⟩
  · simp [FinMoney.divided_by_money, hok, except_ok_bind, hz]
  · simp [FinMoney.divided_by_money, hok, except_ok_bind, hz, FinMoney.round_result]
  · exact ⟨roundInt s (a.amount / b.amount * 10 ^ a.currency.precision),
      roundToDp_mul_pow _ _ _⟩
  · simp [FinMoney.divided_by_decimal, hz]
  · simp [FinMoney.divided_by_decimal, hz, FinMoney.round_result]
  · exact ⟨roundInt s (a.amount / d * 10 ^ a.currency.precision),
      roundToDp_mul_pow _ _ _⟩

/-- Witness for C2: one USD divided by three USD with truncation, and the
integrality of the rounded quotient at precision two. -/
theorem C2_division_rounding_witness :
    (FinMoney.mk 1 FinMoneyCurrency.USD).divided_by_money
        (FinMoney.mk 3 FinMoneyCurrency.USD) FinMoneyRoundingStrategy.toZero =
      Except.ok ⟨roundToDp 2 FinMoneyRoundingStrategy.toZero ((1 : ℚ) / 3),
        FinMoneyCurrency.USD⟩ ∧
    ∃ m : ℤ, roundToDp 2 FinMoneyRoundingStrategy.toZero ((1 : ℚ) / 3) * 10 ^ 2 = (m : ℚ) :=
  (C2_division_rounding (FinMoney.mk 1 FinMoneyCurrency.USD)
    (FinMoney.mk 3 FinMoneyCurrency.USD) 0 FinMoneyRoundingStrategy.toZero rfl).2.1
    (by norm_num)

/-- C9: for matching currencies, percent_change_from returns DivisionByZero
exactly when the initial amount is zero, and otherwise the relative change
times one hundred; negative_percent_change_from returns exactly the negation
of that result, and the identical error in the error case. -/
theorem C9_percent_change (a b : FinMoney) (hid : a.currency.id = b.currency.id) :
    (b.amount = 0 →
      a.percent_change_from b = Except.error FinMoneyError.divisionByZero ∧
      a.negative_percent_change_from b = Except.error FinMoneyError.divisionByZero) ∧
    (b.amount ≠ 0 →
      a.percent_change_from b = Except.ok ((a.amount - b.amount) * 100 / b.amount) ∧
      a.negative_percent_change_from b =
        Except.ok (-((a.amount - b.amount) * 100 / b.amount))) := by
  have hok := assert_same_currency_ok hid
  refine ⟨fun hz => ⟨?_, ?_⟩, fun hz => ⟨?_, ?_⟩⟩
  · simp [FinMoney.percent_change_from, hok, except_ok_bind, hz]
  · simp [FinMoney.negative_percent_change_from, hok, except_ok_bind, hz]
  · simp [FinMoney.percent_change_from, hok, except_ok_bind, hz]
  · simp [FinMoney.negative_percent_change_from, hok, except_ok_bind, hz]
    ring

theorem sanitize_and_parse_code_ok {c s' : String}
    (h : sanitize_and_parse_code c = some s') : isTinyOk 16 s' = true := by
  unfold sanitize_and_parse_code at h
  split at h
  · cases h
    assumption
  · split at h
    · cases h
      assumption
    · cases h

theorem sanitize_and_parse_name_ok {c s' : String}
    (h : sanitize_and_parse_name c = some s') : isTinyOk 52 s' = true := by
  unfold sanitize_and_parse_name at h
  split at h
  · cases h
    assumption
  · split at h
    · cases h
      assumption
    · cases h

theorem isTinyOk_length {n : Nat} {s : String} (h : isTinyOk n s = true) : s.length ≤ n := by
  unfold isTinyOk at h
  simp only [Bool.and_eq_true, decide_eq_true_eq] at h
  exact h.1

theorem bindAssert_ok {a b : FinMoney} {β : Type} {f : Unit → Except FinMoneyError β} {c : β}
    (h : (a.assert_same_currency b).bind f = Except.ok c) : f () = Except.ok c := by
  unfold FinMoney.assert_same_currency at h
  split at h
  · exact h
  · rw [except_error_bind] at h
    cases h

/-- C6: under the documented preconditions the two panic branches of the
library are unreachable, and panics happen exactly on precondition
violations: sqrt is defined (Some) on every non-negative amount and panics
(None) exactly on negative amounts; the in-place operator forms add and
subtract succeed with the same-currency sum and difference whenever the
currency ids match, and panic (None) exactly on a currency mismatch.  Every
other failure of the library is a value of the error channel by type (the
operations return Except values; see the C1 and C2 theorems). -/
theorem C6_panic_freedom :
    (∀ m : FinMoney, 0 ≤ m.amount → m.sqrt =
      some ⟨(Nat.sqrt (⌊m.amount * 10 ^ 56⌋.toNat) : ℚ) / 10 ^ 28, m.currency⟩) ∧
    (∀ m : FinMoney, m.amount < 0 → m.sqrt = none) ∧
    (∀ a b : FinMoney, a.currency.id = b.currency.id →
      a.addAssign b = some ⟨a.amount + b.amount, a.currency⟩ ∧
      a.subAssign b = some ⟨a.amount - b.amount, a.currency⟩) ∧
    (∀ a b : FinMoney, a.currency.id ≠ b.currency.id →
      a.addAssign b = none ∧ a.subAssign b = none) := by
  refine ⟨?_, ?_, ?_, ?_⟩
  · intro m h
    simp [FinMoney.sqrt, sqrtQ, not_lt.mpr h]
  · intro m h
    simp [FinMoney.sqrt, sqrtQ, h]
  · intro a b h
    have hok := assert_same_currency_ok h
    constructor <;>
      simp [FinMoney.addAssign, FinMoney.subAssign, FinMoney.plus_money,
        FinMoney.minus_money, hok, except_ok_bind, Except.toOption]
  · intro a b h
    have hm := assert_same_currency_mismatch h
    constructor <;>
      simp [FinMoney.addAssign, FinMoney.subAssign, FinMoney.plus_money,
        FinMoney.minus_money, hm, except_error_bind, Except.toOption]

/-- Witness for C6: the square root of four USD is defined, and the in-place
addition of one and two USD succeeds. -/
theorem C6_panic_freedom_witness :
    (FinMoney.mk 4 FinMoneyCurrency.USD).sqrt =
      some ⟨(Nat.sqrt (⌊(4 : ℚ) * 10 ^ 56⌋.toNat) : ℚ) / 10 ^ 28, FinMoneyCurrency.USD⟩ ∧
    (FinMoney.mk 1 FinMoneyCurrency.USD).addAssign (FinMoney.mk 2 FinMoneyCurrency.USD) =
      some ⟨1 + 2, FinMoneyCurrency.USD⟩ :=
  ⟨C6_panic_freedom.1 (FinMoney.mk 4 FinMoneyCurrency.USD) (by norm_num),
   (C6_panic_freedom.2.2.1 (FinMoney.mk 1 FinMoneyCurrency.USD)
     (FinMoney.mk 2 FinMoneyCurrency.USD) rfl).1⟩

/-- C7: new_sanitized never fails (it is a total function to a descriptor):
the precision is clamped to at most 28; the code is obtained by first
attempting a direct parse, only on failure rewriting non-ASCII characters
and truncating, and falling back to the reserved INVALID code if that still
cannot be represented; the resulting code is bounded ASCII of length at most
16 and any resulting name is bounded ASCII of length at most 52 (on these
all-ASCII strings character length and byte length agree). -/
theorem C7_new_sanitized_total (id : Int) (code : String) (name : Option String) (p : Nat) :
    (FinMoneyCurrency.new_sanitized id code name p).precision = Min.min p 28 ∧
    (FinMoneyCurrency.new_sanitized id code name p).precision ≤ 28 ∧
    (isTinyOk 16 code = true → (FinMoneyCurrency.new_sanitized id code name p).code = code) ∧
    (isTinyOk 16 code = false → isTinyOk 16 (sanitize_ascii_truncate code 16) = true →
      (FinMoneyCurrency.new_sanitized id code name p).code = sanitize_ascii_truncate code 16) ∧
    (isTinyOk 16 code = false → isTinyOk 16 (sanitize_ascii_truncate code 16) = false →
      (FinMoneyCurrency.new_sanitized id code name p).code = "INVALID") ∧
    isTinyOk 16 (FinMoneyCurrency.new_sanitized id code name p).code = true ∧
    (FinMoneyCurrency.new_sanitized id code name p).code.length ≤ 16 ∧
    (∀ nm, (FinMoneyCurrency.new_sanitized id code name p).name = some nm →
      isTinyOk 52 nm = true ∧ nm.length ≤ 52) := by
  have hcode0 : isTinyOk 16 ((sanitize_and_parse_code code).getD ("INVALID")) = true := by
    rcases hc : sanitize_and_parse_code code with _ | s'
    · decide
    · exact sanitize_and_parse_code_ok hc
  have hcode : isTinyOk 16 (FinMoneyCurrency.new_sanitized id code name p).code = true := hcode0
  refine ⟨rfl, min_le_right p 28, ?_, ?_, ?_, hcode, isTinyOk_length hcode, ?_⟩
  · intro h
    simp [FinMoneyCurrency.new_sanitized, sanitize_and_parse_code, h]
  · intro h1 h2
    simp [FinMoneyCurrency.new_sanitized, sanitize_and_parse_code, h1, h2]
  · intro h1 h2
    simp [FinMoneyCurrency.new_sanitized, sanitize_and_parse_code, h1, h2]
  · intro nm hnm
    simp only [FinMoneyCurrency.new_sanitized, Option.bind_eq_some] at hnm
    obtain ⟨n0, _, hn0⟩ := hnm
    exact ⟨sanitize_and_parse_name_ok hn0, isTinyOk_length (sanitize_and_parse_name_ok hn0)⟩

/-- Witness for C7 at an ASCII code, a non-ASCII name, and an excessive
precision: the precision clamps to 28, the code parses directly, and the
name is sanitized into a bounded ASCII string. -/
theorem C7_new_sanitized_total_witness :
    (FinMoneyCurrency.new_sanitized 1 "US$" (some ("Dollar™")) 50).precision = Min.min 50 28 ∧
    (FinMoneyCurrency.new_sanitized 1 "US$" (some ("Dollar™")) 50).code = "US$" ∧
    isTinyOk 16 (FinMoneyCurrency.new_sanitized 1 "US$" (some ("Dollar™")) 50).code = true :=
  ⟨(C7_new_sanitized_total 1 "US$" (some ("Dollar™")) 50).1,
   (C7_new_sanitized_total 1 "US$" (some ("Dollar™")) 50).2.2.1 (by decide),
   (C7_new_sanitized_total 1 "US$" (some ("Dollar™")) 50).2.2.2.2.2.1⟩

/-- Counterexample for C8 as stated: the strict constructor accepts the
empty string as a currency code (the backing bounded-ASCII string type
admits the empty string), so a constructor-produced descriptor can have an
empty code, contradicting the claimed non-emptiness. -/
theorem C8_empty_code_counterexample :
    FinMoneyCurrency.new 1 "" none 2 = Except.ok ⟨1, none, "", 2⟩ ∧
    ("" : String).length = 0 := ⟨rfl, rfl⟩

/-- C8 amended: every descriptor produced by new, new_sanitized or
with_precision has precision at most 28 and a code that is ASCII without NUL
bytes and within the 16-byte bound (but possibly empty); with_precision
preserves the id, code and name of its input. -/
theorem C8_descriptor_invariants :
    (∀ (id : Int) (code : String) (name : Option String) (p : Nat) (c : FinMoneyCurrency),
      FinMoneyCurrency.new id code name p = Except.ok c →
      c.precision ≤ 28 ∧ isTinyOk 16 c.code = true ∧ c.code.length ≤ 16) ∧
    (∀ (id : Int) (code : String) (name : Option String) (p : Nat),
      (FinMoneyCurrency.new_sanitized id code name p).precision ≤ 28 ∧
      isTinyOk 16 (FinMoneyCurrency.new_sanitized id code name p).code = true ∧
      (FinMoneyCurrency.new_sanitized id code name p).code.length ≤ 16) ∧
    (∀ (c : FinMoneyCurrency) (p : Nat) (c2 : FinMoneyCurrency),
      c.with_precision p = Except.ok c2 →
      c2.precision ≤ 28 ∧ c2.code = c.code ∧ c2.id = c.id ∧ c2.name = c.name) := by
  refine ⟨?_, ?_, ?_⟩
  · intro id code name p c h
    unfold FinMoneyCurrency.new at h
    split at h
    · cases h
    · have hple : p ≤ 28 := by omega
      split at h
      · split at h
        · split at h
          · rename_i pc hpc
            cases h
            have hok := sanitize_and_parse_code_ok hpc
            exact ⟨hple, hok, isTinyOk_length hok⟩
          · cases h
        · cases h
      · split at h
        · rename_i pc hpc
          cases h
          have hok := sanitize_and_parse_code_ok hpc
          exact ⟨hple, hok, isTinyOk_length hok⟩
        · cases h
  · intro id code name p
    have h7 := C7_new_sanitized_total id code name p
    exact ⟨h7.2.1, h7.2.2.2.2.2.1, h7.2.2.2.2.2.2.1⟩
  · intro c p c2 h
    unfold FinMoneyCurrency.with_precision at h
    split at h
    · cases h
    · cases h
      refine ⟨?_, rfl, rfl, rfl⟩
      show p ≤ 28
      omega

/-- Witness for C8 amended: the with_precision branch at USD and precision
four preserves the code and keeps the precision within the bound. -/
theorem C8_descriptor_invariants_witness :
    (4 : Nat) ≤ 28 ∧
    (⟨1, none, "USD", 4⟩ : FinMoneyCurrency).code = FinMoneyCurrency.USD.code :=
  ⟨(C8_descriptor_invariants.2.2 FinMoneyCurrency.USD 4 ⟨1, none, "USD", 4⟩ rfl).1,
   (C8_descriptor_invariants.2.2 FinMoneyCurrency.USD 4 ⟨1, none, "USD", 4⟩ rfl).2.1⟩

end Finmoney

namespace Finmoney

/-- C3: for every tick whose value is ten to the minus dp, to_tick succeeds
and returns the amount rounded to dp decimal places with the supplied
strategy, and this coincides with the general-path formula (round the
quotient by the tick to zero places, multiply back): the fast path and the
general path are algebraically identical on power-of-ten ticks. -/
theorem C3_tick_fast_general_equivalence (x : FinMoney) (t : Decimal) (dp : Nat)
    (s : FinMoneyRoundingStrategy) (ht : t.val = 1 / 10 ^ dp) :
    x.to_tick t s = Except.ok ⟨roundToDp dp s x.amount, x.currency⟩ ∧
    roundToDp 0 s (x.amount / t.val) * t.val = roundToDp dp s x.amount := by
  have hpos : 0 < t.val := by
    rw [ht]
    positivity
  have hnle : ¬ t.val ≤ 0 := not_le.mpr hpos
  have key : roundToDp 0 s (x.amount / t.val) * t.val = roundToDp dp s x.amount := by
    rw [ht, roundToDp_zero_eq, one_div, div_eq_mul_inv, inv_inv, ← div_eq_mul_inv]
    rfl
  refine ⟨?_, key⟩
  unfold FinMoney.to_tick
  rw [if_neg hnle]
  rcases htp : t.tick_power10_dp with _ | d2
  · simp only [htp]
    rw [key]
  · have hval : t.val = 1 / 10 ^ t.scale ∧ t.scale = d2 := by
      unfold Decimal.tick_power10_dp at htp
      split at htp
      · exact ⟨by assumption, Option.some.inj htp⟩
      · cases htp
    obtain ⟨hv, hsc⟩ := hval
    have hpow : (10 : ℚ) ^ dp = 10 ^ t.scale := by
      have h1 : (1 : ℚ) / 10 ^ dp = 1 / 10 ^ t.scale := by rw [← ht, hv]
      rwa [one_div, one_div, inv_inj] at h1
    have hnat : (10 : ℕ) ^ dp = 10 ^ t.scale := by exact_mod_cast hpow
    have hdp : dp = t.scale := Nat.pow_right_injective (by norm_num) hnat
    simp only [htp]
    rw [← hsc, ← hdp]

/-- Witness for C3 at tick one-hundredth (mantissa 1, scale 2) and amount
10.567 with ceiling rounding. -/
theorem C3_tick_fast_general_equivalence_witness :
    (FinMoney.mk (10567/1000) FinMoneyCurrency.USD).to_tick ⟨1, 2⟩
        FinMoneyRoundingStrategy.toPositiveInfinity =
      Except.ok ⟨roundToDp 2 FinMoneyRoundingStrategy.toPositiveInfinity ((10567 : ℚ)/1000),
        FinMoneyCurrency.USD⟩ ∧
    roundToDp 0 FinMoneyRoundingStrategy.toPositiveInfinity
        ((10567 : ℚ)/1000 / Decimal.val ⟨1, 2⟩) * Decimal.val ⟨1, 2⟩ =
      roundToDp 2 FinMoneyRoundingStrategy.toPositiveInfinity ((10567 : ℚ)/1000) :=
  C3_tick_fast_general_equivalence (FinMoney.mk (10567/1000) FinMoneyCurrency.USD) ⟨1, 2⟩ 2
    FinMoneyRoundingStrategy.toPositiveInfinity (by norm_num [Decimal.val])

/-- C4: for every FinMoney value and every positive tick, is_multiple_of_tick
returns true exactly when to_tick_nearest returns a value whose amount equals
the original amount. -/
theorem C4_tick_membership (x : FinMoney) (t : Decimal) (ht : 0 < t.val) :
    x.is_multiple_of_tick t = true ↔
      ∃ y, x.to_tick_nearest t = Except.ok y ∧ y.amount = x.amount := by
  have hne : t.val ≠ 0 := ne_of_gt ht
  have hnle : ¬ t.val ≤ 0 := not_le.mpr ht
  unfold FinMoney.is_multiple_of_tick FinMoney.to_tick_nearest FinMoney.to_tick
  simp only [if_neg hne, if_neg hnle]
  rcases htp : t.tick_power10_dp with _ | dp <;> simp only [htp, decide_eq_true_eq]
  · constructor
    · intro h
      obtain ⟨m, hm⟩ := (fractQ_eq_zero_iff _).mp h
      refine ⟨⟨roundToDp 0 FinMoneyRoundingStrategy.midpointNearestEven
        (x.amount / t.val) * t.val, x.currency⟩, rfl, ?_⟩
      show roundToDp 0 FinMoneyRoundingStrategy.midpointNearestEven
        (x.amount / t.val) * t.val = x.amount
      rw [roundToDp_zero_eq, hm, roundInt_intCast, ← hm, div_mul_cancel₀ _ hne]
    · rintro ⟨y, hy, hamt⟩
      have hyv := Except.ok.inj hy
      rw [← hyv] at hamt
      apply (fractQ_eq_zero_iff _).mpr
      refine ⟨roundInt FinMoneyRoundingStrategy.midpointNearestEven (x.amount / t.val), ?_⟩
      have hamt2 : roundToDp 0 FinMoneyRoundingStrategy.midpointNearestEven
          (x.amount / t.val) * t.val = x.amount := hamt
      rw [roundToDp_zero_eq] at hamt2
      rw [div_eq_iff hne]
      exact hamt2.symm
  · constructor
    · intro h
      exact ⟨⟨roundToDp dp FinMoneyRoundingStrategy.midpointNearestEven x.amount,
        x.currency⟩, rfl, h⟩
    · rintro ⟨y, hy, hamt⟩
      have hyv := Except.ok.inj hy
      rw [← hyv] at hamt
      exact hamt

/-- Witness for C4 at amount 10.50 and tick 0.25 (a multiple: the membership
test holds and nearest tick rounding fixes the amount). -/
theorem C4_tick_membership_witness :
    ∃ y, (FinMoney.mk (21/2) FinMoneyCurrency.USD).to_tick_nearest ⟨25, 2⟩ =
        Except.ok y ∧ y.amount = (21 : ℚ)/2 :=
  (C4_tick_membership (FinMoney.mk (21/2) FinMoneyCurrency.USD) ⟨25, 2⟩
      (by norm_num [Decimal.val])).mp
    (by norm_num [FinMoney.is_multiple_of_tick, Decimal.tick_power10_dp, Decimal.val,
      fractQ, truncI])

/-- C5: for every FinMoney value and every positive tick, nearest tick
rounding is idempotent: the first application succeeds with a value that the
second application maps to itself. -/
theorem C5_tick_idempotence (x : FinMoney) (t : Decimal) (ht : 0 < t.val) :
    ∃ y, x.to_tick_nearest t = Except.ok y ∧ y.to_tick_nearest t = Except.ok y := by
  have hne : t.val ≠ 0 := ne_of_gt ht
  have hnle : ¬ t.val ≤ 0 := not_le.mpr ht
  rcases htp : t.tick_power10_dp with _ | dp
  · refine ⟨⟨roundToDp 0 FinMoneyRoundingStrategy.midpointNearestEven
      (x.amount / t.val) * t.val, x.currency⟩, ?_, ?_⟩
    · unfold FinMoney.to_tick_nearest FinMoney.to_tick
      rw [if_neg hnle]
      simp only [htp]
    · unfold FinMoney.to_tick_nearest FinMoney.to_tick
      rw [if_neg hnle]
      simp only [htp]
      have : roundToDp 0 FinMoneyRoundingStrategy.midpointNearestEven
          (roundToDp 0 FinMoneyRoundingStrategy.midpointNearestEven
            (x.amount / t.val) * t.val / t.val) * t.val =
          roundToDp 0 FinMoneyRoundingStrategy.midpointNearestEven
            (x.amount / t.val) * t.val := by
        rw [mul_div_cancel_right₀ _ hne, roundToDp_idem]
      exact congrArg Except.ok (congrArg (fun v => FinMoney.mk v x.currency) this)
  · refine ⟨⟨roundToDp dp FinMoneyRoundingStrategy.midpointNearestEven x.amount,
      x.currency⟩, ?_, ?_⟩
    · unfold FinMoney.to_tick_nearest FinMoney.to_tick
      rw [if_neg hnle]
      simp only [htp]
    · unfold FinMoney.to_tick_nearest FinMoney.to_tick
      rw [if_neg hnle]
      simp only [htp]
      exact congrArg Except.ok
        (congrArg (fun v => FinMoney.mk v x.currency) (roundToDp_idem dp _ x.amount))

/-- Witness for C5 at amount 10.567 and tick 0.25. -/
theorem C5_tick_idempotence_witness :
    ∃ y, (FinMoney.mk (10567/1000) FinMoneyCurrency.USD).to_tick_nearest ⟨25, 2⟩ =
        Except.ok y ∧ y.to_tick_nearest ⟨25, 2⟩ = Except.ok y :=
  C5_tick_idempotence (FinMoney.mk (10567/1000) FinMoneyCurrency.USD) ⟨25, 2⟩
    (by norm_num [Decimal.val])

/-- Witness for C9 at one hundred ten over one hundred USD: a ten percent
change and its negation. -/
theorem C9_percent_change_witness :
    (FinMoney.mk 110 FinMoneyCurrency.USD).percent_change_from
        (FinMoney.mk 100 FinMoneyCurrency.USD) =
      Except.ok ((110 - 100) * 100 / 100) ∧
    (FinMoney.mk 110 FinMoneyCurrency.USD).negative_percent_change_from
        (FinMoney.mk 100 FinMoneyCurrency.USD) =
      Except.ok (-((110 - 100) * 100 / 100)) :=
  (C9_percent_change (FinMoney.mk 110 FinMoneyCurrency.USD)
    (FinMoney.mk 100 FinMoneyCurrency.USD) rfl).2 (by norm_num)

theorem to_tick_currency {x : FinMoney} {t : Decimal} {s : FinMoneyRoundingStrategy}
    {c : FinMoney} (h : x.to_tick t s = Except.ok c) : c.currency = x.currency := by
  unfold FinMoney.to_tick at h
  split at h
  · cases h
  · split at h
    · cases h
      rfl
    · cases h
      rfl

/-- C10: every FinMoney-producing operation other than rescale (the money
and decimal arithmetic forms, rounding in all its forms, floor, ceiling,
truncation, absolute value, negation, normalization, square root, and tick
rounding with its wrappers) returns a value whose entire currency descriptor
(id, code, name, precision) is identical to the receiver's; rescale keeps
the id, code and name and changes only the precision field. -/
theorem C10_currency_frame (a b : FinMoney) (d : ℚ) (t : Decimal)
    (dp p : Nat) (s : FinMoneyRoundingStrategy) :
    (∀ c, a.plus_money b = Except.ok c → c.currency = a.currency) ∧
    (a.plus_decimal d).currency = a.currency ∧
    (∀ c, a.minus_money b = Except.ok c → c.currency = a.currency) ∧
    (a.minus_decimal d).currency = a.currency ∧
    (∀ c, a.multiplied_by_money b = Except.ok c → c.currency = a.currency) ∧
    (a.multiplied_by_decimal d).currency = a.currency ∧
    (∀ c, a.divided_by_money b s = Except.ok c → c.currency = a.currency) ∧
    (∀ c, a.divided_by_decimal d s = Except.ok c → c.currency = a.currency) ∧
    (a.rounded s).currency = a.currency ∧
    (a.round_dp dp).currency = a.currency ∧
    (a.round_dp_with_strategy dp s).currency = a.currency ∧
    a.floor.currency = a.currency ∧
    a.ceil.currency = a.currency ∧
    a.trunc.currency = a.currency ∧
    a.abs.currency = a.currency ∧
    a.negated.currency = a.currency ∧
    a.normalize.currency = a.currency ∧
    (∀ c, a.sqrt = some c → c.currency = a.currency) ∧
    (∀ c, a.to_tick t s = Except.ok c → c.currency = a.currency) ∧
    (∀ c, a.to_tick_down t = Except.ok c → c.currency = a.currency) ∧
    (∀ c, a.to_tick_up t = Except.ok c → c.currency = a.currency) ∧
    (∀ c, a.to_tick_nearest t = Except.ok c → c.currency = a.currency) ∧
    (∀ c, a.rescale p = Except.ok c →
      c.currency.id = a.currency.id ∧ c.currency.code = a.currency.code ∧
      c.currency.name = a.currency.name ∧ c.currency.precision = p) := by
  refine ⟨?_, rfl, ?_, rfl, ?_, rfl, ?_, ?_, rfl, rfl, rfl, rfl, rfl, rfl, rfl, rfl, rfl,
    ?_, ?_, ?_, ?_, ?_, ?_⟩
  · intro c h
    cases bindAssert_ok h
    rfl
  · intro c h
    cases bindAssert_ok h
    rfl
  · intro c h
    cases bindAssert_ok h
    rfl
  · intro c h
    have h2 := bindAssert_ok h
    split at h2
    · cases h2
    · cases h2
      rfl
  · intro c h
    unfold FinMoney.divided_by_decimal at h
    split at h
    · cases h
    · cases h
      rfl
  · intro c h
    unfold FinMoney.sqrt at h
    rcases hs : sqrtQ a.amount with _ | r
    · rw [hs] at h
      cases h
    · rw [hs] at h
      cases h
      rfl
  · exact fun c h => to_tick_currency h
  · exact fun c h => to_tick_currency h
  · exact fun c h => to_tick_currency h
  · exact fun c h => to_tick_currency h
  · intro c h
    unfold FinMoney.rescale FinMoneyCurrency.with_precision at h
    split at h
    · rw [except_error_bind] at h
      cases h
    · rw [except_ok_bind] at h
      cases h
      exact ⟨rfl, rfl, rfl, rfl⟩

/-- Witness for C10: adding one and two USD keeps the USD descriptor. -/
theorem C10_currency_frame_witness :
    (⟨(1 : ℚ) + 2, FinMoneyCurrency.USD⟩ : FinMoney).currency = FinMoneyCurrency.USD :=
  (C10_currency_frame ⟨1, FinMoneyCurrency.USD⟩ ⟨2, FinMoneyCurrency.USD⟩ 0 ⟨1, 0⟩ 0 0
    FinMoneyRoundingStrategy.midpointNearestEven).1
    ⟨(1 : ℚ) + 2, FinMoneyCurrency.USD⟩ rfl

end Finmoney
